import Mathlib

/-!
Verification of the Orgappitation ledger gateway against its specification.

The development shallowly embeds the core of the repository:
* `src/api/modal_app.py` — the FastAPI service (query guard, ingest, stats,
  delete-all, API-key check);
* `src/cli/yaml_to_modal.py` — the YAML field normalizer and batch ingester;
* `src/scripts/migrate_csv_to_sql.py` — the CSV income-flag coercion.

Strings are embedded as `List Char`; Python/SQLite numbers as `ℚ`;
fallible operations as `Except`.
-/

namespace Orgapp

/-- Python/JSON-style strings, embedded as character lists. -/
abbrev Str := List Char

/-- Turn a Lean string literal into the embedded string type. -/
def toL (s : String) : Str := s.data

/-- Python `str.upper` on one character (ASCII range; the SQL keywords the
guard compares against are all ASCII). -/
def pyUpper (c : Char) : Char := c.toUpper

/-- The whitespace characters stripped by Python `str.strip()`. -/
def isPySpace (c : Char) : Bool :=
  c = ' ' || c = '\t' || c = '\n' || c = '\r' || c = '\x0b' || c = '\x0c'

/-- Python `str.strip()`: drop leading and trailing whitespace. -/
def pyStrip (s : Str) : Str :=
  ((s.dropWhile isPySpace).reverse.dropWhile isPySpace).reverse

/-- `QueryRequest.validate_sql`'s deny list (`dangerous_keywords` in
`modal_app.py`), in source order. -/
def dangerous_keywords : List Str :=
  [toL "DROP", toL "DELETE", toL "INSERT", toL "UPDATE", toL "ALTER",
   toL "CREATE", toL "TRUNCATE", toL "REPLACE", toL "PRAGMA", toL "ATTACH",
   toL "DETACH"]

/-- Python's `keyword in v_upper` substring test. -/
def containsSub (needle hay : Str) : Bool := decide (needle <:+: hay)

/-- `QueryRequest.validate_sql`: uppercase and strip the submitted SQL,
require the `SELECT` start, then reject if any deny-listed keyword occurs
anywhere in the normalized string; on acceptance the original string is
returned unmodified.  (The Python code raises early for a non-SELECT; the
branches here are the same two rules.) -/
def validate_sql (v : Str) : Except Str Str :=
  let v_upper := pyStrip (v.map pyUpper)
  if (toL "SELECT").isPrefixOf v_upper then
    match dangerous_keywords.find? (fun k => containsSub k v_upper) with
    | some k => Except.error (toL "Operacion no permitida: " ++ k)
    | none => Except.ok v
  else
    Except.error (toL "Solo se permiten queries SELECT")

/-- The `/query` endpoint body (`execute_query` in `modal_app.py`): the
request model's validator runs before the handler, so the store is only
reached with a validated string.  Actual SQL execution against the store is
abstracted as the parameter `exec`. -/
def execute_query {α : Type} (exec : Str → α) (sql : Str) : Except Str α :=
  match validate_sql sql with
  | Except.error e => Except.error e
  | Except.ok s => Except.ok (exec s)

/-- A nonempty needle without whitespace that occurs in a list still occurs
after dropping a whitespace run from the front. -/
theorem infix_dropWhile_of_no_space (p : Char → Bool) (k : Str) (hk : k ≠ [])
    (hall : ∀ c ∈ k, p c = false) :
    ∀ s : Str, k <:+: s → k <:+: s.dropWhile p := by
  intro s
  induction s with
  | nil =>
      intro h
      simpa using h
  | cons c s ih =>
      intro h
      by_cases hc : p c
      · rw [List.dropWhile_cons_of_pos hc]
        rcases List.infix_cons_iff.mp h with hpre | hinf
        · cases k with
          | nil => exact absurd rfl hk
          | cons a t =>
              have hac : a = c := (List.cons_prefix_cons.mp hpre).1
              have : p a = false := hall a (by simp)
              rw [hac] at this
              rw [this] at hc
              exact absurd hc (by simp)
        · exact ih hinf
      · rw [List.dropWhile_cons_of_neg hc]
        exact h

/-- A nonempty needle without whitespace that occurs in a string still occurs
after `str.strip()`. -/
theorem infix_pyStrip (k : Str) (hk : k ≠ [])
    (hall : ∀ c ∈ k, isPySpace c = false) (s : Str) (h : k <:+: s) :
    k <:+: pyStrip s := by
  have h1 : k <:+: s.dropWhile isPySpace :=
    infix_dropWhile_of_no_space isPySpace k hk hall s h
  have h2 : k.reverse <:+: (s.dropWhile isPySpace).reverse := h1.reverse
  have hkrev : k.reverse ≠ [] := by
    intro hcon
    exact hk (by simpa using congrArg List.reverse hcon)
  have hallrev : ∀ c ∈ k.reverse, isPySpace c = false := by
    intro c hc
    exact hall c (List.mem_reverse.mp hc)
  have h3 : k.reverse <:+: ((s.dropWhile isPySpace).reverse.dropWhile isPySpace) :=
    infix_dropWhile_of_no_space isPySpace k.reverse hkrev hallrev _ h2
  have h4 := h3.reverse
  rw [List.reverse_reverse] at h4
  exact h4

/-- Every deny-listed keyword is nonempty and whitespace-free. -/
theorem dangerous_keywords_clean :
    ∀ k ∈ dangerous_keywords, k ≠ [] ∧ ∀ c ∈ k, isPySpace c = false := by
  decide

/-- C1: a submitted SQL string containing any deny-listed token anywhere in
its uppercased form is rejected by the guard, and the `/query` handler
returns that rejection without the abstracted store execution influencing
the result (the execute path is never reached). -/
theorem c1_denylist_always_rejected (v : Str)
    (h : ∃ k ∈ dangerous_keywords, k <:+: v.map pyUpper) :
    (∃ e, validate_sql v = Except.error e) ∧
    (∀ (α : Type) (exec : Str → α), ∃ e, execute_query exec v = Except.error e) ∧
    (∀ (α : Type) (exec1 exec2 : Str → α),
       execute_query exec1 v = execute_query exec2 v) := by
  obtain ⟨k, hkmem, hkinf⟩ := h
  obtain ⟨hkne, hkclean⟩ := dangerous_keywords_clean k hkmem
  have hinf : k <:+: pyStrip (v.map pyUpper) :=
    infix_pyStrip k hkne hkclean _ hkinf
  have herr : ∃ e, validate_sql v = Except.error e := by
    unfold validate_sql
    by_cases hp : (toL "SELECT").isPrefixOf (pyStrip (v.map pyUpper))
    · have hsome : (dangerous_keywords.find?
          (fun kk => containsSub kk (pyStrip (v.map pyUpper)))).isSome := by
        rw [List.find?_isSome]
        exact ⟨k, hkmem, by simpa [containsSub] using hinf⟩
      obtain ⟨kk, hkk⟩ := Option.isSome_iff_exists.mp hsome
      simp only [hp, if_true, hkk]
      exact ⟨_, rfl⟩
    · simp only [hp, if_false]
      exact ⟨_, rfl⟩
  obtain ⟨e, he⟩ := herr
  refine ⟨⟨e, he⟩, ?_, ?_⟩
  · intro α exec
    exact ⟨e, by simp [execute_query, he]⟩
  · intro α exec1 exec2
    simp [execute_query, he]

/-- Closed instance of C1 at a concrete denied query. -/
theorem c1_denylist_always_rejected_witness :
    ∃ e, validate_sql (toL "SELECT 1; DELETE FROM transactions") =
      Except.error e :=
  (c1_denylist_always_rejected (toL "SELECT 1; DELETE FROM transactions")
    (by decide)).1

/-- First whitespace-delimited token of a string.  Modelled from the spec:
the spec's acceptance rule speaks of the normalized string's "first token",
a notion the source never computes; it is defined here only to compare the
spec's wording with the code's prefix test. -/
def specFirstToken (s : Str) : Str :=
  (s.dropWhile isPySpace).takeWhile (fun c => !(isPySpace c))

/-- C2 counterexample: `SELECTX FROM T` is accepted by the guard even though
its first token is `SELECTX`, not `SELECT`; the guard tests a character
prefix, not a whole token. -/
theorem c2_first_token_counterexample :
    validate_sql (toL "SELECTX FROM T") = Except.ok (toL "SELECTX FROM T") ∧
    specFirstToken (pyStrip ((toL "SELECTX FROM T").map pyUpper)) ≠
      toL "SELECT" := by
  constructor
  · rfl
  · decide

/-- C2 (amended): the guard accepts only strings whose trimmed, uppercased
form begins with the six characters `SELECT` (as a prefix, not necessarily a
whole token), and rejects every string whose trimmed, uppercased form does
not begin with `SELECT`, regardless of the rest of its content. -/
theorem c2_guard_requires_select_start (v : Str) :
    ((∃ r, validate_sql v = Except.ok r) →
       (toL "SELECT").isPrefixOf (pyStrip (v.map pyUpper)) = true) ∧
    ((toL "SELECT").isPrefixOf (pyStrip (v.map pyUpper)) = false →
       ∃ e, validate_sql v = Except.error e) := by
  constructor
  · rintro ⟨r, hr⟩
    by_contra hp
    have hp2 : (toL "SELECT").isPrefixOf (pyStrip (v.map pyUpper)) = false := by
      cases hb : (toL "SELECT").isPrefixOf (pyStrip (v.map pyUpper))
      · rfl
      · exact absurd hb hp
    unfold validate_sql at hr
    simp only [hp2, Bool.false_eq_true, if_false] at hr
    exact Except.noConfusion hr
  · intro hp
    unfold validate_sql
    simp only [hp, Bool.false_eq_true, if_false]
    exact ⟨_, rfl⟩

/-- Closed instance of C2 (amended) at a concrete non-SELECT input. -/
theorem c2_guard_requires_select_start_witness :
    ∃ e, validate_sql (toL "DROP TABLE transactions") = Except.error e :=
  (c2_guard_requires_select_start (toL "DROP TABLE transactions")).2 (by decide)

/-- Scalar values produced by `yaml.safe_load` for a mapping entry (the
normalizer only ever coerces scalars; nested structures do not occur in the
fields it copies). -/
inductive YVal where
  | s (v : Str)
  | n (v : ℚ)
  | b (v : Bool)
  | null
deriving DecidableEq, Repr

/-- A decoded YAML/JSON mapping: ordered key/value pairs with unique keys. -/
abbrev RawMap := List (Str × YVal)

/-- Python `data[key]` lookup / `key in data` test combined: the first
binding of the key, if any. -/
def getVal? : RawMap → Str → Option YVal
  | [], _ => none
  | p :: rest, k => if p.1 = k then some p.2 else getVal? rest k

/-- Python `key in data`. -/
def hasKey (m : RawMap) (k : Str) : Bool := (getVal? m k).isSome

/-- Digit accumulator for decimal parsing (`acc` holds the value so far). -/
def parseNatCore : Str → ℕ → Option ℕ
  | [], acc => some acc
  | c :: r, acc =>
      if '0' ≤ c ∧ c ≤ '9' then parseNatCore r (acc * 10 + (c.toNat - '0'.toNat))
      else none

/-- Nonempty all-digit string to a natural number. -/
def parseNat (s : Str) : Option ℕ :=
  if s = [] then none else parseNatCore s 0

/-- Unsigned decimal literal: `digits`, `digits.`, `.digits` or
`digits.digits`.  (Exponent and inf/nan forms of Python `float()` are not
modelled; no claim exercises them.) -/
def parseUnsigned (s : Str) : Option ℚ :=
  let ip := s.takeWhile (fun c => c ≠ '.')
  let rest := s.dropWhile (fun c => c ≠ '.')
  match rest with
  | [] => (parseNat s).map (fun n => (n : ℚ))
  | _ :: frac =>
      if frac.contains '.' then none
      else if ip = [] ∧ frac = [] then none
      else
        match parseNatCore ip 0, parseNatCore frac 0 with
        | some i, some f =>
            some ((i : ℚ) + (f : ℚ) / ((10 : ℚ) ^ frac.length))
        | _, _ => none

/-- Python `float(value)` on a YAML scalar: numbers pass through, booleans
become 0/1, numeric strings are parsed (after stripping whitespace, with an
optional sign), `None` and unparsable strings raise. -/
def pyFloat : YVal → Except Str ℚ
  | YVal.n q => Except.ok q
  | YVal.b bv => Except.ok (if bv then 1 else 0)
  | YVal.null => Except.error (toL "float() argument must not be None")
  | YVal.s v =>
      let t := pyStrip v
      let core :=
        match t with
        | '-' :: r => (parseUnsigned r).map (fun q => -q)
        | '+' :: r => parseUnsigned r
        | _ => parseUnsigned t
      match core with
      | some q => Except.ok q
      | none => Except.error (toL "could not convert string to float")

/-- Python `bool(value)` truthiness on a YAML scalar. -/
def pyBool : YVal → Bool
  | YVal.s v => !(v.isEmpty)
  | YVal.n q => decide (q ≠ 0)
  | YVal.b bv => bv
  | YVal.null => false

/-- `convert_yaml_to_json`'s Spanish-to-English field map, in source order. -/
def field_mapping : List (Str × Str) :=
  [(toL "monto", toL "amount"),
   (toL "moneda", toL "currency"),
   (toL "tipo_gasto", toL "expense_type"),
   (toL "metodo_pago", toL "payment_method"),
   (toL "fuente_dinero", toL "money_source"),
   (toL "descripcion", toL "description"),
   (toL "categoria", toL "category"),
   (toL "notas", toL "notes"),
   (toL "es_ingreso", toL "is_income"),
   (toL "tasa_cambio", toL "exchange_rate"),
   (toL "monto_convertido", toL "converted_amount"),
   (toL "moneda_convertida", toL "converted_currency"),
   (toL "fecha", toL "date")]

/-- The canonical keys coerced with `float(...)` by the copy loops. -/
def numericKeys : List Str :=
  [toL "amount", toL "exchange_rate", toL "converted_amount"]

/-- One assignment of `convert_yaml_to_json`'s copy loops, keyed by the
canonical field name: numeric fields are `float`-coerced and skipped when
the value is `None` (result `none`), the income flag goes through `bool`,
other values are copied unchanged. -/
def coerceField (ek : Str) (value : YVal) : Except Str (Option YVal) :=
  if numericKeys.contains ek then
    match value with
    | YVal.null => Except.ok none
    | v => (pyFloat v).map (fun q => some (YVal.n q))
  else if ek = toL "is_income" then
    Except.ok (some (YVal.b (pyBool value)))
  else
    Except.ok (some value)

/-- First copy loop of `convert_yaml_to_json`: for each (Spanish, English)
pair, copy the coerced value under the English key when the Spanish key is
present. -/
def runSpanish (data : RawMap) : List (Str × Str) → RawMap → Except Str RawMap
  | [], acc => Except.ok acc
  | p :: rest, acc =>
      match getVal? data p.1 with
      | none => runSpanish data rest acc
      | some value =>
          match coerceField p.2 value with
          | Except.error e => Except.error e
          | Except.ok none => runSpanish data rest acc
          | Except.ok (some w) => runSpanish data rest (acc ++ [(p.2, w)])

/-- Second copy loop of `convert_yaml_to_json`: accept English keys directly
when not already produced by the first loop. -/
def runEnglish (data : RawMap) : List Str → RawMap → Except Str RawMap
  | [], acc => Except.ok acc
  | ek :: rest, acc =>
      if hasKey data ek && !(hasKey acc ek) then
        match getVal? data ek with
        | none => runEnglish data rest acc
        | some value =>
            match coerceField ek value with
            | Except.error e => Except.error e
            | Except.ok none => runEnglish data rest acc
            | Except.ok (some w) => runEnglish data rest (acc ++ [(ek, w)])
      else runEnglish data rest acc

/-- `convert_yaml_to_json` on an already-decoded mapping: empty input fails,
both copy loops run, an `amount` key is required, and the two protocol
defaults (`currency = "ARS"`, `is_income = false`) are added when absent. -/
def convert_yaml_to_json (data : RawMap) : Except Str RawMap :=
  if data.isEmpty then Except.error (toL "YAML vacio")
  else
    match runSpanish data field_mapping [] with
    | Except.error e => Except.error e
    | Except.ok j1 =>
        match runEnglish data (field_mapping.map Prod.snd) j1 with
        | Except.error e => Except.error e
        | Except.ok j2 =>
            if hasKey j2 (toL "amount") = false then
              Except.error (toL "Debe especificar al menos monto o amount")
            else
              let j3 :=
                if hasKey j2 (toL "currency") then j2
                else j2 ++ [(toL "currency", YVal.s (toL "ARS"))]
              let j4 :=
                if hasKey j3 (toL "is_income") then j3
                else j3 ++ [(toL "is_income", YVal.b false)]
              Except.ok j4

/-- The set of currencies `TransactionCreate.validate_currency` accepts. -/
def valid_currencies : List Str :=
  [toL "ARS", toL "USD", toL "CAD", toL "ETH", toL "BTC"]

/-- The canonical record `TransactionCreate` of `modal_app.py`. -/
structure TransactionCreate where
  amount : ℚ
  currency : Str
  expense_type : Option Str
  category : Option Str
  is_income : Bool
  payment_method : Option Str
  money_source : Option Str
  description : Option Str
  notes : Option Str
  exchange_rate : Option ℚ
  converted_amount : Option ℚ
  converted_currency : Option Str
  date : Option Str
deriving DecidableEq, Repr

/-- Pydantic number coercion: numbers directly, numeric strings parsed. -/
def pydFloat (v : YVal) : Except Str ℚ :=
  match v with
  | YVal.n q => Except.ok q
  | YVal.s sv => pyFloat (YVal.s sv)
  | _ => Except.error (toL "Input should be a valid number")

/-- Pydantic optional-string field: absent or null is `none`, a string is
kept, anything else is rejected. -/
def pydStr? (o : Option YVal) : Except Str (Option Str) :=
  match o with
  | none => Except.ok none
  | some YVal.null => Except.ok none
  | some (YVal.s sv) => Except.ok (some sv)
  | some _ => Except.error (toL "Input should be a valid string")

/-- Pydantic optional positive-float field (`gt=0`). -/
def pydPosFloat? (o : Option YVal) : Except Str (Option ℚ) :=
  match o with
  | none => Except.ok none
  | some YVal.null => Except.ok none
  | some v =>
      match pydFloat v with
      | Except.error e => Except.error e
      | Except.ok q =>
          if q ≤ 0 then Except.error (toL "Input should be greater than 0")
          else Except.ok (some q)

/-- `TransactionCreate.validate_currency`: a truthy value outside the fixed
set is rejected (the falsy empty string skips the check, as in the source). -/
def validateCurrencyStr (sv : Str) : Except Str Str :=
  if sv ≠ [] ∧ ¬ (sv ∈ valid_currencies) then
    Except.error (toL "Moneda no valida")
  else Except.ok sv

/-- The `amount` field of the model: required, float, `gt=0`. -/
def parseAmount (j : RawMap) : Except Str ℚ :=
  match getVal? j (toL "amount") with
  | none => Except.error (toL "amount: Field required")
  | some YVal.null => Except.error (toL "amount: Input should be a valid number")
  | some v =>
      match pydFloat v with
      | Except.error e => Except.error e
      | Except.ok q =>
          if q ≤ 0 then
            Except.error (toL "amount: Input should be greater than 0")
          else Except.ok q

/-- The remaining fields of the `TransactionCreate` model, given a parsed
amount: `currency` defaults to `ARS` and must be in the fixed set,
`is_income` defaults to `false`, everything else is optional. -/
def parseRest (amount : ℚ) (j : RawMap) : Except Str TransactionCreate := do
  let currency0 ←
    match getVal? j (toL "currency") with
    | none => Except.ok (toL "ARS")
    | some (YVal.s sv) => Except.ok sv
    | some _ => Except.error (toL "currency: Input should be a valid string")
  let currency ← validateCurrencyStr currency0
  let expense_type ← pydStr? (getVal? j (toL "expense_type"))
  let category ← pydStr? (getVal? j (toL "category"))
  let is_income ←
    match getVal? j (toL "is_income") with
    | none => Except.ok false
    | some (YVal.b bv) => Except.ok bv
    | some _ => Except.error (toL "is_income: Input should be a valid boolean")
  let payment_method ← pydStr? (getVal? j (toL "payment_method"))
  let money_source ← pydStr? (getVal? j (toL "money_source"))
  let description ← pydStr? (getVal? j (toL "description"))
  let notes ← pydStr? (getVal? j (toL "notes"))
  let exchange_rate ← pydPosFloat? (getVal? j (toL "exchange_rate"))
  let converted_amount ← pydPosFloat? (getVal? j (toL "converted_amount"))
  let cc0 ← pydStr? (getVal? j (toL "converted_currency"))
  let converted_currency ←
    match cc0 with
    | none => Except.ok none
    | some sv => (validateCurrencyStr sv).map some
  let date ← pydStr? (getVal? j (toL "date"))
  Except.ok ⟨amount, currency, expense_type, category, is_income,
    payment_method, money_source, description, notes, exchange_rate,
    converted_amount, converted_currency, date⟩

/-- Validation of a JSON payload against the `TransactionCreate` model. -/
def TransactionCreate.parse (j : RawMap) : Except Str TransactionCreate := do
  let amount ← parseAmount j
  parseRest amount j

/-- A stored transaction row (the `transactions` table). -/
structure Transaction where
  id : Str
  date : Str
  amount : ℚ
  currency : Str
  expense_type : Option Str
  category : Option Str
  is_income : Bool
  payment_method : Option Str
  money_source : Option Str
  description : Option Str
  notes : Option Str
  exchange_rate : Option ℚ
  converted_amount : Option ℚ
  converted_currency : Option Str
deriving DecidableEq, Repr

/-- The transactions table. -/
abbrev Store := List Transaction

/-- The `/ingest` endpoint body: pick the caller date when truthy (Python
`transaction.date if transaction.date else datetime.now()`), build the row
and append it; returns the new store and the generated id. -/
def ingest_transaction (newId nowDate : Str) (t : TransactionCreate)
    (store : Store) : Store × Str :=
  let date :=
    match t.date with
    | some d => if d = [] then nowDate else d
    | none => nowDate
  (store ++ [⟨newId, date, t.amount, t.currency, t.expense_type, t.category,
      t.is_income, t.payment_method, t.money_source, t.description, t.notes,
      t.exchange_rate, t.converted_amount, t.converted_currency⟩], newId)

/-- The CLI single-item pipeline `ingest_from_yaml` composed with the
`/ingest` endpoint: normalize, validate against the model, insert.  The
outcome is returned together with the store, which is unchanged on any
failure. -/
def ingest_from_yaml (newId nowDate : Str) (raw : RawMap) (store : Store) :
    Except Str Str × Store :=
  match convert_yaml_to_json raw with
  | Except.error e => (Except.error e, store)
  | Except.ok j =>
      match TransactionCreate.parse j with
      | Except.error e => (Except.error e, store)
      | Except.ok t =>
          let r := ingest_transaction newId nowDate t store
          (Except.ok r.2, r.1)

/-- A value inside a top-level batch mapping: either a scalar or a wrapped
sequence of raw item mappings (the only nested shape the batch code reads). -/
inductive DocVal where
  | v (x : YVal)
  | seq (items : List RawMap)
deriving DecidableEq, Repr

/-- Lookup in a top-level batch mapping. -/
def docGet? : List (Str × DocVal) → Str → Option DocVal
  | [], _ => none
  | p :: rest, k => if p.1 = k then some p.2 else docGet? rest k

/-- Scalar entries of a top-level mapping, for use as a single transaction
item.  (Sequence-valued entries are not representable in the scalar item
mapping; no admitted shape or claim puts a sequence inside a single item.) -/
def toRawMap (entries : List (Str × DocVal)) : RawMap :=
  entries.filterMap (fun p =>
    match p.2 with
    | DocVal.v x => some (p.1, x)
    | DocVal.seq _ => none)

/-- A decoded top-level batch document: a list, a mapping, or a bare scalar. -/
inductive BatchDoc where
  | blist (items : List RawMap)
  | bdict (entries : List (Str × DocVal))
  | bscalar (x : YVal)
deriving DecidableEq, Repr

/-- Shape detection of `ingest_batch_from_yaml`: falsy documents fail, a
list is taken as is, a mapping is unwrapped at `transacciones` (then
`transactions`), a mapping with an amount-equivalent key is a one-item
batch, anything else is an unrecognized format.  (A collection key holding a
scalar is modelled as an error; the source would fail while iterating it.) -/
def split_batch (doc : BatchDoc) : Except Str (List RawMap) :=
  match doc with
  | BatchDoc.blist items =>
      if items.isEmpty then Except.error (toL "YAML vacio")
      else Except.ok items
  | BatchDoc.bdict entries =>
      if entries.isEmpty then Except.error (toL "YAML vacio")
      else
        match docGet? entries (toL "transacciones") with
        | some (DocVal.seq l) => Except.ok l
        | some (DocVal.v _) => Except.error (toL "TypeError: not iterable")
        | none =>
            match docGet? entries (toL "transactions") with
            | some (DocVal.seq l) => Except.ok l
            | some (DocVal.v _) => Except.error (toL "TypeError: not iterable")
            | none =>
                if hasKey (toRawMap entries) (toL "monto") ||
                   hasKey (toRawMap entries) (toL "amount") then
                  Except.ok [toRawMap entries]
                else Except.error (toL "Formato de YAML no reconocido")
  | BatchDoc.bscalar x =>
      if pyBool x = false then Except.error (toL "YAML vacio")
      else Except.error (toL "Formato de YAML no reconocido")

/-- One per-item outcome entry of the batch loop. -/
structure BatchOutcome where
  success : Bool
  index : ℕ
  resultId : Option Str
  error : Option Str
deriving DecidableEq, Repr

/-- The per-item loop of `ingest_batch_from_yaml`: items are processed in
order with 1-based indices, each through the single-item pipeline; a failure
records an error entry and processing continues.  Fresh ids come from
`idGen` applied to the item index. -/
def processTransactions (idGen : ℕ → Str) (nowDate : Str) :
    List RawMap → ℕ → Store → Store × List BatchOutcome
  | [], _, store => (store, [])
  | item :: rest, i, store =>
      match ingest_from_yaml (idGen i) nowDate item store with
      | (Except.ok rid, store2) =>
          let r := processTransactions idGen nowDate rest (i + 1) store2
          (r.1, ⟨true, i, some rid, none⟩ :: r.2)
      | (Except.error e, store2) =>
          let r := processTransactions idGen nowDate rest (i + 1) store2
          (r.1, ⟨false, i, none, some e⟩ :: r.2)

/-- `ingest_batch_from_yaml`: shape detection, then the per-item loop. -/
def ingest_batch_from_yaml (idGen : ℕ → Str) (nowDate : Str) (doc : BatchDoc)
    (store : Store) : Except Str (Store × List BatchOutcome) :=
  match split_batch doc with
  | Except.error e => Except.error e
  | Except.ok items => Except.ok (processTransactions idGen nowDate items 1 store)

/-- `delete_all_transactions` (`DELETE /transactions`): any confirmation
token other than the sentinel `DELETE_ALL` is rejected with the store
untouched; the sentinel wipes the store and reports the pre-wipe row count. -/
def delete_all_transactions (confirm : Str) (store : Store) :
    Except Str ℕ × Store :=
  if confirm ≠ toL "DELETE_ALL" then
    (Except.error
      (toL "Para eliminar todas las transacciones, debes pasar confirm=DELETE_ALL"),
     store)
  else
    (Except.ok store.length, [])

/-- An HTTP error as raised by `HTTPException(status_code, detail)`. -/
structure HttpError where
  status : ℕ
  detail : Str
deriving DecidableEq, Repr

/-- `verify_api_key`: the expected key is the environment value defaulted to
the empty string; an empty expected key is a server configuration error
(500) for every caller, otherwise the caller key must match exactly (401). -/
def verify_api_key (envKey : Option Str) (x_api_key : Str) :
    Except HttpError Str :=
  let expected_key := envKey.getD []
  if expected_key.isEmpty then
    Except.error ⟨500, toL "API key no configurada en el servidor"⟩
  else if x_api_key ≠ expected_key then
    Except.error ⟨401, toL "API key invalida"⟩
  else
    Except.ok x_api_key

/-- FastAPI's `Depends(verify_api_key)`: the endpoint body runs only after
the key check succeeds. -/
def authedOp {α : Type} (envKey : Option Str) (x_api_key : Str)
    (op : Unit → α) : Except HttpError α :=
  match verify_api_key envKey x_api_key with
  | Except.error e => Except.error e
  | Except.ok _ => Except.ok (op ())

/-- The `StatsResponse` model of `modal_app.py`. -/
structure StatsResponse where
  total_income : ℚ
  total_expenses : ℚ
  balance : ℚ
  total_transactions : ℕ
  expense_count : ℕ
  income_count : ℕ
deriving DecidableEq, Repr

/-- The `/stats` aggregate query: per-row `CASE` sums over the whole table
(`SUM(CASE WHEN is_income = 1 THEN amount ELSE 0 END)` and its expense and
balance variants) and the three counts. -/
def get_stats (store : Store) : StatsResponse :=
  { total_income := (store.map (fun t => if t.is_income then t.amount else 0)).sum
    total_expenses := (store.map (fun t => if t.is_income then 0 else t.amount)).sum
    balance := (store.map (fun t => if t.is_income then t.amount else -t.amount)).sum
    total_transactions := store.length
    expense_count := (store.filter (fun t => !t.is_income)).length
    income_count := (store.filter (fun t => t.is_income)).length }

/-- The `/ingest` endpoint behind the key check. -/
def ingest_endpoint (envKey : Option Str) (key newId nowDate : Str)
    (t : TransactionCreate) (store : Store) : Except HttpError (Store × Str) :=
  authedOp envKey key (fun _ => ingest_transaction newId nowDate t store)

/-- The `/query` endpoint behind the key check. -/
def query_endpoint {α : Type} (envKey : Option Str) (key : Str)
    (exec : Str → α) (sql : Str) : Except HttpError (Except Str α) :=
  authedOp envKey key (fun _ => execute_query exec sql)

/-- The `/stats` endpoint behind the key check. -/
def stats_endpoint (envKey : Option Str) (key : Str) (store : Store) :
    Except HttpError StatsResponse :=
  authedOp envKey key (fun _ => get_stats store)

/-- The `DELETE /transactions` endpoint behind the key check. -/
def delete_all_endpoint (envKey : Option Str) (key confirm : Str)
    (store : Store) : Except HttpError (Except Str ℕ × Store) :=
  authedOp envKey key (fun _ => delete_all_transactions confirm store)

/-- `convert_csv_to_sql_format`'s income-flag coercion in
`migrate_csv_to_sql.py`: `value.lower() in ['true', '1', 'yes']`. -/
def csv_truthy_string (value : Str) : Bool :=
  (value.map Char.toLower) ∈ [toL "true", toL "1", toL "yes"]

/-- A concrete two-row store used by closed instances. -/
def sampleStore2 : Store :=
  [⟨toL "a", toL "2024-01-01", 100, toL "ARS", none, none, false, none, none,
     none, none, none, none, none⟩,
   ⟨toL "b", toL "2024-01-02", 5000, toL "ARS", none, none, true, none, none,
     none, none, none, none, none⟩]

/-- C5: `delete_all_transactions` with any token other than the sentinel
`DELETE_ALL` fails and leaves the store unchanged; with the exact sentinel
it empties the store and returns the pre-wipe row count. -/
theorem c5_delete_all_confirmation (confirm : Str) (store : Store) :
    (confirm ≠ toL "DELETE_ALL" →
       (∃ e, (delete_all_transactions confirm store).1 = Except.error e) ∧
       (delete_all_transactions confirm store).2 = store) ∧
    (confirm = toL "DELETE_ALL" →
       delete_all_transactions confirm store = (Except.ok store.length, [])) := by
  constructor
  · intro h
    constructor
    · exact ⟨toL "Para eliminar todas las transacciones, debes pasar confirm=DELETE_ALL",
        by simp [delete_all_transactions, h]⟩
    · simp [delete_all_transactions, h]
  · intro h
    simp [delete_all_transactions, h]

/-- Closed instance of C5 on a two-row store: a wrong token keeps both rows,
the sentinel token wipes them and reports 2. -/
theorem c5_delete_all_confirmation_witness :
    ((∃ e, (delete_all_transactions (toL "no") sampleStore2).1 = Except.error e) ∧
       (delete_all_transactions (toL "no") sampleStore2).2 = sampleStore2) ∧
    delete_all_transactions (toL "DELETE_ALL") sampleStore2 =
      (Except.ok 2, []) :=
  ⟨(c5_delete_all_confirmation (toL "no") sampleStore2).1 (by decide),
   (c5_delete_all_confirmation (toL "DELETE_ALL") sampleStore2).2 rfl⟩

/-- The 500 error raised when the server-side API key is not configured. -/
def missingKeyError : HttpError :=
  ⟨500, toL "API key no configurada en el servidor"⟩

/-- C9: with the server secret unset or empty, the key check and all four
authenticated endpoints fail with the configuration error for every supplied
credential; with a nonempty secret, the check passes exactly for the
matching credential. -/
theorem c9_api_key_check (envKey : Option Str) (cred : Str) :
    ((envKey.getD []).isEmpty = true →
       verify_api_key envKey cred = Except.error missingKeyError ∧
       (∀ (newId nowDate : Str) (t : TransactionCreate) (store : Store),
          ingest_endpoint envKey cred newId nowDate t store =
            Except.error missingKeyError) ∧
       (∀ (α : Type) (exec : Str → α) (sql : Str),
          query_endpoint envKey cred exec sql = Except.error missingKeyError) ∧
       (∀ store : Store,
          stats_endpoint envKey cred store = Except.error missingKeyError) ∧
       (∀ (confirm : Str) (store : Store),
          delete_all_endpoint envKey cred confirm store =
            Except.error missingKeyError)) ∧
    (∀ k, envKey = some k → k ≠ [] →
       ((∃ r, verify_api_key envKey cred = Except.ok r) ↔ cred = k)) := by
  constructor
  · intro h
    have hv : verify_api_key envKey cred = Except.error missingKeyError := by
      unfold verify_api_key
      simp [h, missingKeyError]
    refine ⟨hv, ?_, ?_, ?_, ?_⟩
    · intro newId nowDate t store
      simp [ingest_endpoint, authedOp, hv]
    · intro α exec sql
      simp [query_endpoint, authedOp, hv]
    · intro store
      simp [stats_endpoint, authedOp, hv]
    · intro confirm store
      simp [delete_all_endpoint, authedOp, hv]
  · intro k hk hkne
    have hne : k.isEmpty = false := by
      cases hb : k.isEmpty
      · rfl
      · exact absurd (List.isEmpty_iff.mp hb) hkne
    constructor
    · rintro ⟨r, hr⟩
      by_contra hcred
      unfold verify_api_key at hr
      simp [hk, hne, hcred] at hr
    · intro hcred
      refine ⟨k, ?_⟩
      unfold verify_api_key
      simp [hk, hne, hcred]

/-- Closed instance of C9: an empty configured secret rejects even the empty
credential with the configuration error, and a configured secret accepts
exactly itself. -/
theorem c9_api_key_check_witness :
    verify_api_key (some []) [] = Except.error missingKeyError ∧
    ((∃ r, verify_api_key (some (toL "k")) (toL "k") = Except.ok r) ↔
      toL "k" = toL "k") :=
  ⟨((c9_api_key_check (some []) []).1 (by decide)).1,
   (c9_api_key_check (some (toL "k")) (toL "k")).2 (toL "k") rfl (by decide)⟩

/-- Per-row income sum equals the sum over the income rows. -/
theorem sum_case_income (store : Store) :
    (store.map (fun t => if t.is_income then t.amount else 0)).sum =
      ((store.filter (fun t => t.is_income)).map Transaction.amount).sum := by
  induction store with
  | nil => rfl
  | cons t rest ih =>
      by_cases h : t.is_income <;> simp [List.filter_cons, h, ih]

/-- Per-row expense sum equals the sum over the expense rows. -/
theorem sum_case_expense (store : Store) :
    (store.map (fun t => if t.is_income then 0 else t.amount)).sum =
      ((store.filter (fun t => !t.is_income)).map Transaction.amount).sum := by
  induction store with
  | nil => rfl
  | cons t rest ih =>
      by_cases h : t.is_income <;> simp [List.filter_cons, h, ih]

/-- The signed per-row sum equals income sum minus expense sum. -/
theorem sum_case_balance (store : Store) :
    (store.map (fun t => if t.is_income then t.amount else -t.amount)).sum =
      (store.map (fun t => if t.is_income then t.amount else 0)).sum -
      (store.map (fun t => if t.is_income then 0 else t.amount)).sum := by
  induction store with
  | nil => simp
  | cons t rest ih =>
      by_cases h : t.is_income <;> simp [h, ih] <;> ring

/-- C10: the six stats fields are the claimed aggregates — income and
expense totals are the sums of amounts over the rows with the flag set and
clear, the balance is their difference, and the three counts count the
table, the expenses, and the incomes; on the empty store all six are zero. -/
theorem c10_stats_aggregates (store : Store) :
    (get_stats store).total_income =
      ((store.filter (fun t => t.is_income)).map Transaction.amount).sum ∧
    (get_stats store).total_expenses =
      ((store.filter (fun t => !t.is_income)).map Transaction.amount).sum ∧
    (get_stats store).balance =
      (get_stats store).total_income - (get_stats store).total_expenses ∧
    (get_stats store).total_transactions = store.length ∧
    (get_stats store).expense_count =
      (store.filter (fun t => !t.is_income)).length ∧
    (get_stats store).income_count =
      (store.filter (fun t => t.is_income)).length ∧
    get_stats [] = ⟨0, 0, 0, 0, 0, 0⟩ := by
  refine ⟨sum_case_income store, sum_case_expense store, ?_, rfl, rfl, rfl, rfl⟩
  have hb := sum_case_balance store
  calc (get_stats store).balance
      = (store.map (fun t => if t.is_income then t.amount else 0)).sum -
        (store.map (fun t => if t.is_income then 0 else t.amount)).sum := hb
    _ = (get_stats store).total_income - (get_stats store).total_expenses := rfl

/-- C6 counterexample: the YAML normalizer coerces the supplied income-flag
value `"no"` — which truthy-string recognition classifies as false — to
true, because Python `bool` of any non-empty string is true. -/
theorem c6_income_flag_counterexample :
    convert_yaml_to_json
        [(toL "monto", YVal.n 1), (toL "es_ingreso", YVal.s (toL "no"))] =
      Except.ok [(toL "amount", YVal.n 1), (toL "is_income", YVal.b true),
        (toL "currency", YVal.s (toL "ARS"))] ∧
    csv_truthy_string (toL "no") = false := by
  constructor
  · rfl
  · decide

/-- C6 (amended): the CSV migration normalizer recognizes exactly the
strings true/1/yes case-insensitively; the YAML normalizer instead stores
Python `bool(value)` for a supplied income flag — false for the boolean
false, the number 0, the empty string and null, true for every other value
(including strings such as "no" or "false"). -/
theorem c6_income_flag_coercion :
    (∀ v : Str, csv_truthy_string v = true ↔
       (v.map Char.toLower = toL "true" ∨ v.map Char.toLower = toL "1" ∨
        v.map Char.toLower = toL "yes")) ∧
    (∀ value : YVal, coerceField (toL "is_income") value =
       Except.ok (some (YVal.b (pyBool value)))) ∧
    (∀ sv : Str, pyBool (YVal.s sv) = !(sv.isEmpty)) ∧
    (∀ q : ℚ, pyBool (YVal.n q) = decide (q ≠ 0)) ∧
    (∀ bv : Bool, pyBool (YVal.b bv) = bv) ∧
    pyBool YVal.null = false := by
  refine ⟨?_, fun _ => rfl, fun _ => rfl, fun _ => rfl, fun _ => rfl, rfl⟩
  intro v
  simp [csv_truthy_string]

/-- C8 counterexample: a non-empty single raw mapping without an
amount-equivalent key fails at shape detection with a format error, even
though it is one of the three admitted shapes of the claim. -/
theorem c8_shape_detection_counterexample :
    split_batch
        (BatchDoc.bdict [(toL "descripcion", DocVal.v (YVal.s (toL "x")))]) =
      Except.error (toL "Formato de YAML no reconocido") := by
  rfl

/-- C8 (amended): shape detection accepts a non-empty bare sequence as is,
unwraps a collection key (`transacciones`, then `transactions`) holding a
sequence, and admits a single raw mapping exactly when it carries an
amount-equivalent key (`monto` or `amount`); a mapping with neither a
collection key nor an amount-equivalent key fails with a format error. -/
theorem c8_shape_detection (items : List RawMap)
    (entries : List (Str × DocVal)) (l : List RawMap) :
    (items ≠ [] → split_batch (BatchDoc.blist items) = Except.ok items) ∧
    (entries ≠ [] →
       docGet? entries (toL "transacciones") = some (DocVal.seq l) →
       split_batch (BatchDoc.bdict entries) = Except.ok l) ∧
    (entries ≠ [] →
       docGet? entries (toL "transacciones") = none →
       docGet? entries (toL "transactions") = some (DocVal.seq l) →
       split_batch (BatchDoc.bdict entries) = Except.ok l) ∧
    (entries ≠ [] →
       docGet? entries (toL "transacciones") = none →
       docGet? entries (toL "transactions") = none →
       (hasKey (toRawMap entries) (toL "monto") ||
          hasKey (toRawMap entries) (toL "amount")) = true →
       split_batch (BatchDoc.bdict entries) = Except.ok [toRawMap entries]) ∧
    (entries ≠ [] →
       docGet? entries (toL "transacciones") = none →
       docGet? entries (toL "transactions") = none →
       (hasKey (toRawMap entries) (toL "monto") ||
          hasKey (toRawMap entries) (toL "amount")) = false →
       split_batch (BatchDoc.bdict entries) =
         Except.error (toL "Formato de YAML no reconocido")) := by
  have hlist : ∀ x : List RawMap, x ≠ [] → x.isEmpty = false := by
    intro x hx
    cases hb : x.isEmpty
    · rfl
    · exact absurd (List.isEmpty_iff.mp hb) hx
  have hdict : ∀ x : List (Str × DocVal), x ≠ [] → x.isEmpty = false := by
    intro x hx
    cases hb : x.isEmpty
    · rfl
    · exact absurd (List.isEmpty_iff.mp hb) hx
  refine ⟨?_, ?_, ?_, ?_, ?_⟩
  · intro h
    simp [split_batch, hlist items h]
  · intro h h1
    simp [split_batch, hdict entries h, h1]
  · intro h h1 h2
    simp [split_batch, hdict entries h, h1, h2]
  · intro h h1 h2 h3
    simp [split_batch, hdict entries h, h1, h2, h3]
  · intro h h1 h2 h3
    simp [split_batch, hdict entries h, h1, h2, h3]

/-- Closed instances of C8 (amended) for the three admitted shapes. -/
theorem c8_shape_detection_witness :
    split_batch (BatchDoc.blist [[(toL "monto", YVal.n 100)]]) =
      Except.ok [[(toL "monto", YVal.n 100)]] ∧
    split_batch (BatchDoc.bdict
        [(toL "transacciones", DocVal.seq [[(toL "monto", YVal.n 7)]])]) =
      Except.ok [[(toL "monto", YVal.n 7)]] ∧
    split_batch (BatchDoc.bdict [(toL "monto", DocVal.v (YVal.n 3))]) =
      Except.ok [[(toL "monto", YVal.n 3)]] :=
  ⟨(c8_shape_detection [[(toL "monto", YVal.n 100)]] [] []).1 (by decide),
   (c8_shape_detection []
      [(toL "transacciones", DocVal.seq [[(toL "monto", YVal.n 7)]])]
      [[(toL "monto", YVal.n 7)]]).2.1 (by decide) (by decide),
   (c8_shape_detection [] [(toL "monto", DocVal.v (YVal.n 3))] []).2.2.2.1
     (by decide) (by decide) (by decide) (by decide)⟩

/-- Collapse a null binding to an absent one (the numeric copy steps skip
`None` values). -/
def nonNullOpt : Option YVal → Option YVal
  | some YVal.null => none
  | o => o

/-- The value the normalizer effectively uses for the canonical amount: a
non-null `monto` wins, else a non-null `amount`, else nothing. -/
def effectiveAmountSrc (data : RawMap) : Option YVal :=
  match nonNullOpt (getVal? data (toL "monto")) with
  | some v => some v
  | none => nonNullOpt (getVal? data (toL "amount"))

/-- Lookup after appending one binding: the old binding wins. -/
theorem getVal?_append_single (m : RawMap) (kv : Str × YVal) (e : Str) :
    getVal? (m ++ [kv]) e =
      match getVal? m e with
      | some v => some v
      | none => if kv.1 = e then some kv.2 else none := by
  induction m with
  | nil => simp [getVal?]
  | cons p rest ih =>
      by_cases h : p.1 = e <;> simp [getVal?, h, ih]

/-- Appending a binding under a different key does not change a lookup. -/
theorem getVal?_append_single_ne (m : RawMap) (k : Str) (w : YVal) (e : Str)
    (h : k ≠ e) : getVal? (m ++ [(k, w)]) e = getVal? m e := by
  rw [getVal?_append_single]
  cases hm : getVal? m e <;> simp [h]

/-- `hasKey` is false exactly when the lookup is empty. -/
theorem hasKey_eq_false_iff (m : RawMap) (k : Str) :
    hasKey m k = false ↔ getVal? m k = none := by
  unfold hasKey
  cases h : getVal? m k <;> simp

/-- The first copy loop leaves a canonical key untouched when every pair
targeting it has an absent source. -/
theorem runSpanish_preserves (data : RawMap) (e : Str) :
    ∀ (pairs : List (Str × Str)) (acc j : RawMap),
      (∀ p ∈ pairs, p.2 = e → getVal? data p.1 = none) →
      runSpanish data pairs acc = Except.ok j →
      getVal? j e = getVal? acc e := by
  intro pairs
  induction pairs with
  | nil =>
      intro acc j _ hrun
      simp only [runSpanish, Except.ok.injEq] at hrun
      rw [hrun]
  | cons p rest ih =>
      intro acc j hyp hrun
      unfold runSpanish at hrun
      cases hd : getVal? data p.1 with
      | none =>
          rw [hd] at hrun
          exact ih acc j (fun q hq => hyp q (List.mem_cons_of_mem p hq)) hrun
      | some value =>
          have hpe : p.2 ≠ e := by
            intro hcon
            rw [hyp p (List.mem_cons_self p rest) hcon] at hd
            exact Option.noConfusion hd
          cases hc : coerceField p.2 value with
          | error e2 =>
              simp only [hd, hc] at hrun
              exact Except.noConfusion hrun
          | ok o =>
              cases o with
              | none =>
                  simp only [hd, hc] at hrun
                  exact ih acc j (fun q hq => hyp q (List.mem_cons_of_mem p hq)) hrun
              | some w =>
                  simp only [hd, hc] at hrun
                  have := ih (acc ++ [(p.2, w)]) j
                    (fun q hq => hyp q (List.mem_cons_of_mem p hq)) hrun
                  rw [this, getVal?_append_single_ne acc p.2 w e hpe]

/-- The second copy loop leaves a canonical key untouched when that key is
absent from the raw input. -/
theorem runEnglish_preserves (data : RawMap) (e : Str) :
    ∀ (eks : List Str) (acc j : RawMap),
      (∀ k ∈ eks, k = e → hasKey data k = false) →
      runEnglish data eks acc = Except.ok j →
      getVal? j e = getVal? acc e := by
  intro eks
  induction eks with
  | nil =>
      intro acc j _ hrun
      simp only [runEnglish, Except.ok.injEq] at hrun
      rw [hrun]
  | cons ek rest ih =>
      intro acc j hyp hrun
      unfold runEnglish at hrun
      by_cases hcond : (hasKey data ek && !(hasKey acc ek)) = true
      · rw [if_pos hcond] at hrun
        have heke : ek ≠ e := by
          intro hcon
          have h1 : hasKey data ek = false :=
            hyp ek (List.mem_cons_self ek rest) hcon
          have h2 : hasKey data ek = true := (Bool.and_eq_true _ _ |>.mp hcond).1
          rw [h1] at h2
          exact Bool.noConfusion h2
        cases hd : getVal? data ek with
        | none =>
            rw [hd] at hrun
            exact ih acc j (fun q hq => hyp q (List.mem_cons_of_mem ek hq)) hrun
        | some value =>
            cases hc : coerceField ek value with
            | error e2 =>
                simp only [hd, hc] at hrun
                exact Except.noConfusion hrun
            | ok o =>
                cases o with
                | none =>
                    simp only [hd, hc] at hrun
                    exact ih acc j
                      (fun q hq => hyp q (List.mem_cons_of_mem ek hq)) hrun
                | some w =>
                    simp only [hd, hc] at hrun
                    have := ih (acc ++ [(ek, w)]) j
                      (fun q hq => hyp q (List.mem_cons_of_mem ek hq)) hrun
                    rw [this, getVal?_append_single_ne acc ek w e heke]
      · rw [if_neg hcond] at hrun
        exact ih acc j (fun q hq => hyp q (List.mem_cons_of_mem ek hq)) hrun

/-- No pair after the head of `field_mapping` targets the amount key. -/
theorem fmTail_no_amount : ∀ p ∈ field_mapping.tail, p.2 ≠ toL "amount" := by
  decide

/-- No key after the head of the English key list is the amount key. -/
theorem engTail_no_amount :
    ∀ k ∈ (field_mapping.map Prod.snd).tail, k ≠ toL "amount" := by
  decide

/-- The numeric copy step on a non-null value is the `float` coercion. -/
theorem coerceField_numeric_nonnull (ek : Str)
    (hek : numericKeys.contains ek = true) (v : YVal) (hv : v ≠ YVal.null) :
    coerceField ek v = (pyFloat v).map (fun q => some (YVal.n q)) := by
  have hmem : ek ∈ numericKeys := by simpa using hek
  cases v with
  | null => exact absurd rfl hv
  | s sv => simp [coerceField, hmem]
  | n nv => simp [coerceField, hmem]
  | b bv => simp [coerceField, hmem]

/-- What the first copy loop puts under the amount key: nothing when `monto`
is absent or null, otherwise the `float` coercion of its value. -/
theorem runSpanish_amount (data j1 : RawMap)
    (h : runSpanish data field_mapping [] = Except.ok j1) :
    (nonNullOpt (getVal? data (toL "monto")) = none →
       getVal? j1 (toL "amount") = none) ∧
    (∀ v, nonNullOpt (getVal? data (toL "monto")) = some v →
       ∃ q, pyFloat v = Except.ok q ∧
         getVal? j1 (toL "amount") = some (YVal.n q)) := by
  have htail : ∀ p ∈ field_mapping.tail, p.2 = toL "amount" →
      getVal? data p.1 = none := by
    intro p hp hpe
    exact absurd hpe (fmTail_no_amount p hp)
  have hfm : field_mapping = (toL "monto", toL "amount") :: field_mapping.tail := rfl
  rw [hfm] at h
  unfold runSpanish at h
  cases hd : getVal? data (toL "monto") with
  | none =>
      simp only [hd] at h
      have hpres := runSpanish_preserves data (toL "amount")
        field_mapping.tail [] j1 htail h
      constructor
      · intro _
        exact hpres
      · intro v hv
        simp [nonNullOpt] at hv
  | some value =>
      by_cases hnull : value = YVal.null
      · subst hnull
        simp only [hd, show coerceField (toL "amount") YVal.null =
          Except.ok none from rfl] at h
        have hpres := runSpanish_preserves data (toL "amount")
          field_mapping.tail [] j1 htail h
        constructor
        · intro _
          exact hpres
        · intro v hv
          simp [nonNullOpt] at hv
      · have hco := coerceField_numeric_nonnull (toL "amount") (by decide) value hnull
        have hnn : nonNullOpt (some value) = some value := by
          cases value with
          | null => exact absurd rfl hnull
          | s sv => rfl
          | n nv => rfl
          | b bv => rfl
        cases hq : pyFloat value with
        | error e2 =>
            rw [hq] at hco
            simp only [hd, hco, Except.map] at h
            exact Except.noConfusion h
        | ok q =>
            rw [hq] at hco
            simp only [hd, hco, Except.map] at h
            have hpres := runSpanish_preserves data (toL "amount")
              field_mapping.tail ([] ++ [(toL "amount", YVal.n q)]) j1 htail h
            constructor
            · intro hcon
              rw [hnn] at hcon
              exact Option.noConfusion hcon
            · intro v hv
              rw [hnn] at hv
              cases hv
              exact ⟨q, hq, by rw [hpres]; rfl⟩

/-- What the second copy loop does to the amount key: an existing binding is
kept; otherwise a non-null raw `amount` value is `float`-coerced in, and an
absent or null one leaves the key absent. -/
theorem runEnglish_amount (data j1 j2 : RawMap)
    (h : runEnglish data (field_mapping.map Prod.snd) j1 = Except.ok j2) :
    (∀ w, getVal? j1 (toL "amount") = some w →
       getVal? j2 (toL "amount") = some w) ∧
    (getVal? j1 (toL "amount") = none →
       (nonNullOpt (getVal? data (toL "amount")) = none →
          getVal? j2 (toL "amount") = none) ∧
       (∀ v, nonNullOpt (getVal? data (toL "amount")) = some v →
          ∃ q, pyFloat v = Except.ok q ∧
            getVal? j2 (toL "amount") = some (YVal.n q))) := by
  have htail : ∀ k ∈ (field_mapping.map Prod.snd).tail, k = toL "amount" →
      hasKey data k = false := by
    intro k hk hke
    exact absurd hke (engTail_no_amount k hk)
  have hfm : field_mapping.map Prod.snd =
      toL "amount" :: (field_mapping.map Prod.snd).tail := rfl
  rw [hfm] at h
  unfold runEnglish at h
  constructor
  · intro w hw
    have hj1 : hasKey j1 (toL "amount") = true := by
      simp [hasKey, hw]
    simp only [hj1, Bool.not_true, Bool.and_false, Bool.false_eq_true,
      if_false] at h
    have hpres := runEnglish_preserves data (toL "amount")
      (field_mapping.map Prod.snd).tail j1 j2 htail h
    rw [hpres, hw]
  · intro h1
    have hj1 : hasKey j1 (toL "amount") = false := by
      simp [hasKey, h1]
    cases hd : getVal? data (toL "amount") with
    | none =>
        have hdk : hasKey data (toL "amount") = false := by
          simp [hasKey, hd]
        simp only [hdk, Bool.false_and, Bool.false_eq_true, if_false] at h
        have hpres := runEnglish_preserves data (toL "amount")
          (field_mapping.map Prod.snd).tail j1 j2 htail h
        constructor
        · intro _
          rw [hpres, h1]
        · intro v hv
          simp [nonNullOpt] at hv
    | some value =>
        have hdk : hasKey data (toL "amount") = true := by
          simp [hasKey, hd]
        simp only [hdk, hj1, Bool.not_false, Bool.and_true, if_true] at h
        by_cases hnull : value = YVal.null
        · subst hnull
          simp only [hd, show coerceField (toL "amount") YVal.null =
            Except.ok none from rfl] at h
          have hpres := runEnglish_preserves data (toL "amount")
            (field_mapping.map Prod.snd).tail j1 j2 htail h
          constructor
          · intro _
            rw [hpres, h1]
          · intro v hv
            simp [nonNullOpt] at hv
        · have hco := coerceField_numeric_nonnull (toL "amount") (by decide)
            value hnull
          have hnn : nonNullOpt (some value) = some value := by
            cases value with
            | null => exact absurd rfl hnull
            | s sv => rfl
            | n nv => rfl
            | b bv => rfl
          cases hq : pyFloat value with
          | error e2 =>
              rw [hq] at hco
              simp only [hd, hco, Except.map] at h
              exact Except.noConfusion h
          | ok q =>
              rw [hq] at hco
              simp only [hd, hco, Except.map] at h
              have hpres := runEnglish_preserves data (toL "amount")
                (field_mapping.map Prod.snd).tail
                (j1 ++ [(toL "amount", YVal.n q)]) j2 htail h
              constructor
              · intro hcon
                rw [hnn] at hcon
                exact Option.noConfusion hcon
              · intro v hv
                rw [hnn] at hv
                cases hv
                refine ⟨q, hq, ?_⟩
                rw [hpres, getVal?_append_single, h1]
                simp

/-- Apply the two protocol defaults of `convert_yaml_to_json` to a copied
mapping. -/
def applyDefaults (j2 : RawMap) : RawMap :=
  let j3 :=
    if hasKey j2 (toL "currency") then j2
    else j2 ++ [(toL "currency", YVal.s (toL "ARS"))]
  if hasKey j3 (toL "is_income") then j3
  else j3 ++ [(toL "is_income", YVal.b false)]

/-- Successful normalization decomposes into the two copy loops, a passed
amount check, and the protocol defaults. -/
theorem convert_yaml_structure (data j : RawMap)
    (hok : convert_yaml_to_json data = Except.ok j) :
    ∃ j1 j2, runSpanish data field_mapping [] = Except.ok j1 ∧
      runEnglish data (field_mapping.map Prod.snd) j1 = Except.ok j2 ∧
      hasKey j2 (toL "amount") = true ∧
      j = applyDefaults j2 := by
  unfold convert_yaml_to_json at hok
  by_cases hemp : data.isEmpty
  · rw [if_pos hemp] at hok
    exact Except.noConfusion hok
  · rw [if_neg hemp] at hok
    cases hs : runSpanish data field_mapping [] with
    | error e =>
        rw [hs] at hok
        exact Except.noConfusion hok
    | ok j1 =>
        rw [hs] at hok
        cases he : runEnglish data (field_mapping.map Prod.snd) j1 with
        | error e =>
            simp only [he] at hok
            exact Except.noConfusion hok
        | ok j2 =>
            simp only [he] at hok
            by_cases hk : hasKey j2 (toL "amount") = false
            · rw [if_pos hk] at hok
              exact Except.noConfusion hok
            · rw [if_neg hk] at hok
              have hk2 : hasKey j2 (toL "amount") = true := by
                cases hb : hasKey j2 (toL "amount")
                · exact absurd hb hk
                · rfl
              refine ⟨j1, j2, rfl, he, hk2, ?_⟩
              have hok2 := Except.ok.inj hok
              rw [← hok2]
              rfl

/-- Lookups other than `currency` and `is_income` are unchanged by the
defaults. -/
theorem applyDefaults_get_other (j2 : RawMap) (e : Str)
    (h1 : toL "currency" ≠ e) (h2 : toL "is_income" ≠ e) :
    getVal? (applyDefaults j2) e = getVal? j2 e := by
  unfold applyDefaults
  by_cases hc : hasKey j2 (toL "currency") = true
  · rw [if_pos hc]
    by_cases hi : hasKey j2 (toL "is_income") = true
    · rw [if_pos hi]
    · rw [if_neg hi]
      exact getVal?_append_single_ne j2 _ _ e h2
  · rw [if_neg hc]
    by_cases hi : hasKey (j2 ++ [(toL "currency", YVal.s (toL "ARS"))])
        (toL "is_income") = true
    · rw [if_pos hi]
      exact getVal?_append_single_ne j2 _ _ e h1
    · rw [if_neg hi]
      rw [getVal?_append_single_ne (j2 ++ [(toL "currency", YVal.s (toL "ARS"))])
            _ _ e h2,
          getVal?_append_single_ne j2 _ _ e h1]

/-- The full characterization of the canonical amount produced by a
successful normalization: it is the `float` coercion of the effective
amount source. -/
theorem convert_amount_characterization (data j : RawMap)
    (hok : convert_yaml_to_json data = Except.ok j) :
    ∃ v q, effectiveAmountSrc data = some v ∧ pyFloat v = Except.ok q ∧
      getVal? j (toL "amount") = some (YVal.n q) := by
  obtain ⟨j1, j2, hs, he, hk2, hj⟩ := convert_yaml_structure data j hok
  have hja : getVal? j (toL "amount") = getVal? j2 (toL "amount") := by
    rw [hj]
    exact applyDefaults_get_other j2 (toL "amount") (by decide) (by decide)
  obtain ⟨hsA, hsB⟩ := runSpanish_amount data j1 hs
  obtain ⟨heA, heB⟩ := runEnglish_amount data j1 j2 he
  cases hm : nonNullOpt (getVal? data (toL "monto")) with
  | some v =>
      obtain ⟨q, hq, hj1⟩ := hsB v hm
      have hj2 := heA _ hj1
      refine ⟨v, q, ?_, hq, ?_⟩
      · unfold effectiveAmountSrc
        rw [hm]
      · rw [hja, hj2]
  | none =>
      have hj1 : getVal? j1 (toL "amount") = none := hsA hm
      obtain ⟨hB1, hB2⟩ := heB hj1
      cases ha : nonNullOpt (getVal? data (toL "amount")) with
      | none =>
          have hj2 : getVal? j2 (toL "amount") = none := hB1 ha
          have : hasKey j2 (toL "amount") = false := by
            simp [hasKey, hj2]
          rw [this] at hk2
          exact Bool.noConfusion hk2
      | some v =>
          obtain ⟨q, hq, hj2⟩ := hB2 v ha
          refine ⟨v, q, ?_, hq, ?_⟩
          · unfold effectiveAmountSrc
            rw [hm, ha]
          · rw [hja, hj2]

/-- C3: whenever the raw mapping provides no usable amount value (no
`monto`/`amount` key, or only null ones), or the provided amount coerces to
a value ≤ 0, the ingest pipeline fails with a validation error and the
store is unchanged (no row is created). -/
theorem parseAmount_nonpos (j : RawMap) (q : ℚ)
    (hja : getVal? j (toL "amount") = some (YVal.n q)) (hle : q ≤ 0) :
    parseAmount j =
      Except.error (toL "amount: Input should be greater than 0") := by
  unfold parseAmount
  rw [hja]
  simp only [pydFloat]
  exact if_pos hle

/-- A failing amount field fails the whole model validation. -/
theorem parse_error_of_parseAmount (j : RawMap) (e : Str)
    (hpa : parseAmount j = Except.error e) :
    TransactionCreate.parse j = Except.error e := by
  unfold TransactionCreate.parse
  rw [hpa]
  rfl

/-- C3: whenever the raw mapping provides no usable amount value (no
`monto`/`amount` key, or only null ones), or the provided amount coerces to
a value ≤ 0, the ingest pipeline fails with a validation error and the
store is unchanged (no row is created). -/
theorem c3_bad_amount_rejected (newId nowDate : Str) (raw : RawMap)
    (store : Store)
    (h : effectiveAmountSrc raw = none ∨
         ∃ v q, effectiveAmountSrc raw = some v ∧ pyFloat v = Except.ok q ∧
           q ≤ 0) :
    (∃ e, (ingest_from_yaml newId nowDate raw store).1 = Except.error e) ∧
    (ingest_from_yaml newId nowDate raw store).2 = store := by
  cases hc : convert_yaml_to_json raw with
  | error e =>
      have hred : ingest_from_yaml newId nowDate raw store =
          (Except.error e, store) := by
        unfold ingest_from_yaml
        rw [hc]
      rw [hred]
      exact ⟨⟨e, rfl⟩, rfl⟩
  | ok j =>
      obtain ⟨v, q, hsrc, hq, hja⟩ := convert_amount_characterization raw j hc
      rcases h with hnone | ⟨v2, q2, hsrc2, hq2, hle⟩
      · rw [hnone] at hsrc
        exact Option.noConfusion hsrc
      · rw [hsrc2] at hsrc
        cases hsrc
        rw [hq2] at hq
        cases hq
        have hp : TransactionCreate.parse j =
            Except.error (toL "amount: Input should be greater than 0") :=
          parse_error_of_parseAmount j _ (parseAmount_nonpos j _ hja hle)
        have hred : ingest_from_yaml newId nowDate raw store =
            (Except.error (toL "amount: Input should be greater than 0"),
             store) := by
          unfold ingest_from_yaml
          rw [hc]
          simp only [hp]
        rw [hred]
        exact ⟨⟨_, rfl⟩, rfl⟩

/-- Closed instance of C3: a negative `monto` and a missing amount both fail
and leave the store unchanged. -/
theorem c3_bad_amount_rejected_witness :
    ((∃ e, (ingest_from_yaml (toL "id1") (toL "d")
        [(toL "monto", YVal.n (-5))] []).1 = Except.error e) ∧
      (ingest_from_yaml (toL "id1") (toL "d")
        [(toL "monto", YVal.n (-5))] []).2 = []) ∧
    ((∃ e, (ingest_from_yaml (toL "id1") (toL "d")
        [(toL "descripcion", YVal.s (toL "x"))] []).1 = Except.error e) ∧
      (ingest_from_yaml (toL "id1") (toL "d")
        [(toL "descripcion", YVal.s (toL "x"))] []).2 = []) :=
  ⟨c3_bad_amount_rejected (toL "id1") (toL "d") [(toL "monto", YVal.n (-5))]
      [] (Or.inr ⟨YVal.n (-5), -5, by decide, rfl, by norm_num⟩),
   c3_bad_amount_rejected (toL "id1") (toL "d")
      [(toL "descripcion", YVal.s (toL "x"))] [] (Or.inl (by decide))⟩

/-- Each canonical field has exactly one alias in the field map. -/
theorem field_mapping_targets_unique :
    ∀ p ∈ field_mapping, ∀ p2 ∈ field_mapping, p.2 = p2.2 → p.1 = p2.1 := by
  decide

/-- When the alias of a canonical key is absent from the raw input, no pair
targeting that key has a present source. -/
theorem absent_target (data : RawMap) (sk ek : Str)
    (hmem : (sk, ek) ∈ field_mapping) (hsk : hasKey data sk = false) :
    ∀ p ∈ field_mapping, p.2 = ek → getVal? data p.1 = none := by
  intro p hp hpe
  have h1 : p.1 = sk := field_mapping_targets_unique p hp (sk, ek) hmem hpe
  rw [h1]
  exact (hasKey_eq_false_iff data sk).mp hsk

/-- A canonical key whose alias and canonical name are both absent from the
raw input is absent after both copy loops. -/
theorem convert_absent_key (data j1 j2 : RawMap) (e : Str)
    (hs : runSpanish data field_mapping [] = Except.ok j1)
    (he : runEnglish data (field_mapping.map Prod.snd) j1 = Except.ok j2)
    (hsp : ∀ p ∈ field_mapping, p.2 = e → getVal? data p.1 = none)
    (hen : hasKey data e = false) :
    getVal? j2 e = none := by
  have h1 := runSpanish_preserves data e field_mapping [] j1 hsp hs
  have h2 := runEnglish_preserves data e (field_mapping.map Prod.snd) j1 j2
    (fun k _ hke => by rw [hke]; exact hen) he
  rw [h2, h1]
  rfl

/-- The defaults step fills in `ARS` for an absent currency. -/
theorem applyDefaults_currency (j2 : RawMap)
    (h : getVal? j2 (toL "currency") = none) :
    getVal? (applyDefaults j2) (toL "currency") = some (YVal.s (toL "ARS")) := by
  unfold applyDefaults
  have hk : ¬ hasKey j2 (toL "currency") = true := by
    simp [hasKey, h]
  rw [if_neg hk]
  have h3 : getVal? (j2 ++ [(toL "currency", YVal.s (toL "ARS"))])
      (toL "currency") = some (YVal.s (toL "ARS")) := by
    rw [getVal?_append_single, h]
    simp
  by_cases hi : hasKey (j2 ++ [(toL "currency", YVal.s (toL "ARS"))])
      (toL "is_income") = true
  · rw [if_pos hi]
    exact h3
  · rw [if_neg hi]
    rw [getVal?_append_single_ne _ _ _ _ (by decide)]
    exact h3

/-- The defaults step fills in `false` for an absent income flag. -/
theorem applyDefaults_is_income (j2 : RawMap)
    (h : getVal? j2 (toL "is_income") = none) :
    getVal? (applyDefaults j2) (toL "is_income") = some (YVal.b false) := by
  unfold applyDefaults
  by_cases hc : hasKey j2 (toL "currency") = true
  · rw [if_pos hc]
    have hk : ¬ hasKey j2 (toL "is_income") = true := by
      simp [hasKey, h]
    rw [if_neg hk]
    rw [getVal?_append_single, h]
    simp
  · rw [if_neg hc]
    have h3 : getVal? (j2 ++ [(toL "currency", YVal.s (toL "ARS"))])
        (toL "is_income") = none := by
      rw [getVal?_append_single_ne _ _ _ _ (by decide)]
      exact h
    have hk : ¬ hasKey (j2 ++ [(toL "currency", YVal.s (toL "ARS"))])
        (toL "is_income") = true := by
      simp [hasKey, h3]
    rw [if_neg hk]
    rw [getVal?_append_single, h3]
    simp

/-- C7: normalization applies exactly the two protocol defaults — currency
becomes `ARS` and the income flag `false` when unspecified — while any other
canonical field absent from the input (under both vocabularies) stays
absent; the alias-vocabulary input (monto 5000, es_ingreso true, descripcion
"Sueldo") normalizes to the canonical record (amount 5000, is_income true,
description "Sueldo", currency "ARS"); and the payload (amount 100) parses
and is stored with currency `ARS` and is_income `false`. -/
theorem c7_protocol_defaults (raw j : RawMap)
    (hok : convert_yaml_to_json raw = Except.ok j) :
    (hasKey raw (toL "moneda") = false → hasKey raw (toL "currency") = false →
       getVal? j (toL "currency") = some (YVal.s (toL "ARS"))) ∧
    (hasKey raw (toL "es_ingreso") = false →
       hasKey raw (toL "is_income") = false →
       getVal? j (toL "is_income") = some (YVal.b false)) ∧
    (∀ p ∈ field_mapping, p.2 ≠ toL "currency" → p.2 ≠ toL "is_income" →
       hasKey raw p.1 = false → hasKey raw p.2 = false →
       getVal? j p.2 = none) ∧
    convert_yaml_to_json
        [(toL "monto", YVal.n 5000), (toL "es_ingreso", YVal.b true),
         (toL "descripcion", YVal.s (toL "Sueldo"))] =
      Except.ok [(toL "amount", YVal.n 5000),
        (toL "description", YVal.s (toL "Sueldo")),
        (toL "is_income", YVal.b true),
        (toL "currency", YVal.s (toL "ARS"))] ∧
    TransactionCreate.parse [(toL "amount", YVal.n 100)] =
      Except.ok ⟨100, toL "ARS", none, none, false, none, none, none, none,
        none, none, none, none⟩ ∧
    (ingest_transaction (toL "id1") (toL "now")
        ⟨100, toL "ARS", none, none, false, none, none, none, none, none,
         none, none, none⟩ []).1 =
      [⟨toL "id1", toL "now", 100, toL "ARS", none, none, false, none, none,
        none, none, none, none, none⟩] := by
  obtain ⟨j1, j2, hs, he, _, hj⟩ := convert_yaml_structure raw j hok
  refine ⟨?_, ?_, ?_, rfl, rfl, rfl⟩
  · intro h1 h2
    have hab := convert_absent_key raw j1 j2 (toL "currency") hs he
      (absent_target raw (toL "moneda") (toL "currency") (by decide) h1) h2
    rw [hj]
    exact applyDefaults_currency j2 hab
  · intro h1 h2
    have hab := convert_absent_key raw j1 j2 (toL "is_income") hs he
      (absent_target raw (toL "es_ingreso") (toL "is_income") (by decide) h1) h2
    rw [hj]
    exact applyDefaults_is_income j2 hab
  · intro p hp hne1 hne2 hsk hek
    have hmem : (p.1, p.2) ∈ field_mapping := by
      have : (p.1, p.2) = p := rfl
      rw [this]
      exact hp
    have hab := convert_absent_key raw j1 j2 p.2 hs he
      (absent_target raw p.1 p.2 hmem hsk) hek
    rw [hj, applyDefaults_get_other j2 p.2 (fun hcon => hne1 hcon.symm)
      (fun hcon => hne2 hcon.symm)]
    exact hab

/-- Closed instance of C7 at the alias-vocabulary scenario. -/
theorem c7_protocol_defaults_witness :
    getVal? [(toL "amount", YVal.n 5000),
      (toL "description", YVal.s (toL "Sueldo")),
      (toL "is_income", YVal.b true), (toL "currency", YVal.s (toL "ARS"))]
      (toL "currency") = some (YVal.s (toL "ARS")) :=
  (c7_protocol_defaults
      [(toL "monto", YVal.n 5000), (toL "es_ingreso", YVal.b true),
       (toL "descripcion", YVal.s (toL "Sueldo"))]
      [(toL "amount", YVal.n 5000),
       (toL "description", YVal.s (toL "Sueldo")),
       (toL "is_income", YVal.b true), (toL "currency", YVal.s (toL "ARS"))]
      (by rfl)).1 (by decide) (by decide)

/-- Whether normalization and model validation succeed for one batch item
(independent of the store and the generated id and date). -/
def itemOk (item : RawMap) : Bool :=
  match convert_yaml_to_json item with
  | Except.error _ => false
  | Except.ok j =>
      match TransactionCreate.parse j with
      | Except.error _ => false
      | Except.ok _ => true

/-- The single-item pipeline appends one row. -/
theorem ingest_transaction_fst (newId nowDate : Str) (t : TransactionCreate)
    (store : Store) :
    ∃ row, (ingest_transaction newId nowDate t store).1 = store ++ [row] :=
  ⟨_, rfl⟩

/-- The single-item pipeline succeeds and appends exactly one row precisely
when the item passes validation; otherwise it fails and returns the store
unchanged. -/
theorem ingest_from_yaml_cases (newId nowDate : Str) (item : RawMap)
    (store : Store) :
    (itemOk item = true → ∃ rid row,
       ingest_from_yaml newId nowDate item store =
         (Except.ok rid, store ++ [row])) ∧
    (itemOk item = false → ∃ e,
       ingest_from_yaml newId nowDate item store =
         (Except.error e, store)) := by
  cases hc : convert_yaml_to_json item with
  | error e =>
      have hio : itemOk item = false := by
        unfold itemOk
        rw [hc]
      constructor
      · intro h
        rw [hio] at h
        exact Bool.noConfusion h
      · intro _
        refine ⟨e, ?_⟩
        unfold ingest_from_yaml
        rw [hc]
  | ok j =>
      cases hp : TransactionCreate.parse j with
      | error e2 =>
          have hio : itemOk item = false := by
            unfold itemOk
            rw [hc]
            simp only [hp]
          constructor
          · intro h
            rw [hio] at h
            exact Bool.noConfusion h
          · intro _
            refine ⟨e2, ?_⟩
            unfold ingest_from_yaml
            rw [hc]
            simp only [hp]
      | ok t =>
          have hio : itemOk item = true := by
            unfold itemOk
            rw [hc]
            simp only [hp]
          constructor
          · intro _
            obtain ⟨row, hrow⟩ := ingest_transaction_fst newId nowDate t store
            refine ⟨newId, row, ?_⟩
            have hred : ingest_from_yaml newId nowDate item store =
                (Except.ok (ingest_transaction newId nowDate t store).2,
                 (ingest_transaction newId nowDate t store).1) := by
              unfold ingest_from_yaml
              rw [hc]
              simp only [hp]
            rw [hred, hrow]
            rfl
          · intro h
            rw [hio] at h
            exact Bool.noConfusion h

/-- Invariants of the batch loop: one outcome per item with consecutive
1-based indices, success flags matching per-item validation, failure and
success tallies, and the store grown by exactly the number of successes. -/
theorem processTransactions_spec (idGen : ℕ → Str) (nowDate : Str) :
    ∀ (items : List RawMap) (i : ℕ) (store : Store),
      ((processTransactions idGen nowDate items i store).2.map
          BatchOutcome.index = List.range' i items.length) ∧
      ((processTransactions idGen nowDate items i store).2.map
          BatchOutcome.success = items.map itemOk) ∧
      (((processTransactions idGen nowDate items i store).2.filter
          (fun o => !o.success)).length =
        (items.filter (fun it => !(itemOk it))).length) ∧
      (((processTransactions idGen nowDate items i store).2.filter
          (fun o => o.success)).length =
        (items.filter (fun it => itemOk it)).length) ∧
      ((processTransactions idGen nowDate items i store).1.length =
        store.length + (items.filter (fun it => itemOk it)).length) := by
  intro items
  induction items with
  | nil =>
      intro i store
      exact ⟨rfl, rfl, rfl, rfl, by simp [processTransactions]⟩
  | cons item rest ih =>
      intro i store
      cases ho : itemOk item with
      | true =>
          obtain ⟨rid, row, heq⟩ :=
            (ingest_from_yaml_cases (idGen i) nowDate item store).1 ho
          unfold processTransactions
          rw [heq]
          obtain ⟨ih1, ih2, ih3, ih4, ih5⟩ := ih (i + 1) (store ++ [row])
          refine ⟨?_, ?_, ?_, ?_, ?_⟩
          · simp only [List.map_cons, ih1, List.length_cons, List.range'_succ]
          · simp only [List.map_cons, ih2, ho]
          · simp [List.filter_cons, ho, ih3]
          · simp [List.filter_cons, ho, ih4]
          · simp only [ih5]
            simp [List.filter_cons, ho]
            omega
      | false =>
          obtain ⟨e, heq⟩ :=
            (ingest_from_yaml_cases (idGen i) nowDate item store).2 ho
          unfold processTransactions
          rw [heq]
          obtain ⟨ih1, ih2, ih3, ih4, ih5⟩ := ih (i + 1) store
          refine ⟨?_, ?_, ?_, ?_, ?_⟩
          · simp only [List.map_cons, ih1, List.length_cons, List.range'_succ]
          · simp only [List.map_cons, ih2, ho]
          · simp [List.filter_cons, ho, ih3]
          · simp [List.filter_cons, ho, ih4]
          · simp only [ih5]
            simp [List.filter_cons, ho]

/-- Splitting a list by a predicate preserves total length. -/
theorem length_filter_split (l : List RawMap) (p : RawMap → Bool) :
    (l.filter p).length + (l.filter (fun a => !(p a))).length = l.length := by
  induction l with
  | nil => rfl
  | cons a r ih =>
      by_cases h : p a = true <;> simp [List.filter_cons, h] <;> omega

/-- C4: for a batch document splitting into N items of which K fail
validation, the batch ingester returns exactly N outcomes in item order
(1-based consecutive indices, success flags aligned with the items), with K
failure entries and N−K success entries, and grows the store by exactly
N−K rows; a failing item never aborts the remaining ones. -/
theorem c4_batch_outcomes (idGen : ℕ → Str) (nowDate : Str) (doc : BatchDoc)
    (items : List RawMap) (store : Store)
    (hsplit : split_batch doc = Except.ok items) :
    ∃ store2 outs,
      ingest_batch_from_yaml idGen nowDate doc store =
        Except.ok (store2, outs) ∧
      outs.length = items.length ∧
      outs.map BatchOutcome.index = List.range' 1 items.length ∧
      outs.map BatchOutcome.success = items.map itemOk ∧
      (outs.filter (fun o => !o.success)).length =
        (items.filter (fun it => !(itemOk it))).length ∧
      (outs.filter (fun o => o.success)).length =
        items.length - (items.filter (fun it => !(itemOk it))).length ∧
      store2.length = store.length +
        (items.length - (items.filter (fun it => !(itemOk it))).length) := by
  obtain ⟨h1, h2, h3, h4, h5⟩ := processTransactions_spec idGen nowDate items 1 store
  have hsucc : (items.filter (fun it => itemOk it)).length =
      items.length - (items.filter (fun it => !(itemOk it))).length := by
    have := length_filter_split items (fun it => itemOk it)
    omega
  refine ⟨(processTransactions idGen nowDate items 1 store).1,
    (processTransactions idGen nowDate items 1 store).2, ?_, ?_, h1, h2, h3,
    ?_, ?_⟩
  · unfold ingest_batch_from_yaml
    rw [hsplit]
  · have := congrArg List.length h1
    simpa using this
  · rw [h4, hsucc]
  · rw [h5, hsucc]

/-- Closed instance of C4: a two-item batch (one valid, one invalid) yields
two outcomes with indices 1 and 2, one success and one failure, and one new
row. -/
theorem c4_batch_outcomes_witness :
    ∃ store2 outs,
      ingest_batch_from_yaml (fun _ => toL "id") (toL "d")
          (BatchDoc.blist [[(toL "monto", YVal.n 100)],
            [(toL "descripcion", YVal.s (toL "x"))]]) [] =
        Except.ok (store2, outs) ∧
      outs.length = 2 ∧
      outs.map BatchOutcome.index = List.range' 1 2 ∧
      outs.map BatchOutcome.success =
        [[(toL "monto", YVal.n 100)],
         [(toL "descripcion", YVal.s (toL "x"))]].map itemOk ∧
      (outs.filter (fun o => !o.success)).length = 1 ∧
      (outs.filter (fun o => o.success)).length = 2 - 1 ∧
      store2.length = 0 + (2 - 1) := by
  have h := c4_batch_outcomes (fun _ => toL "id") (toL "d")
    (BatchDoc.blist [[(toL "monto", YVal.n 100)],
      [(toL "descripcion", YVal.s (toL "x"))]])
    [[(toL "monto", YVal.n 100)], [(toL "descripcion", YVal.s (toL "x"))]]
    [] (by rfl)
  simpa using h

end Orgapp
